import Mathlib

/-!
# ShortShorts — formal verification of the pipeline specification

Shallow embedding of the media pipeline of the ShortShorts repository
(script-driven 9:16 shorts generator).  Each definition mirrors one source
function:

* crop computation: `src/lib/ffmpeg/crop.ts` (`calculateCropRegion`,
  `smartCrop`) and the MediaPipe cropper (`calculateOptimalCrop`);
* duration matching: `src/lib/ffmpeg/timestretch.ts` (`adjustDuration`);
* captions: `src/lib/utils/captions.ts` (`estimateWordTimings`,
  `generateCaptions`);
* stitching audio: the browser stitcher's ffmpeg filter graph
  (volume, amix duration=first, -t trim);
* scratch-file behaviour and clip extraction: `src/lib/ffmpeg/extract.ts`
  and the server processor's `extractClip`;
* job status updates: the server processor `processVideo` and the
  client `ProcessStep.processVideo`.

JavaScript numbers are embedded as `ℚ` (or `ℝ` where the source computes
`Math.pow` with a fractional exponent); `Math.round` is `⌊x + 1/2⌋`.
-/

namespace ShortShorts

/-- JavaScript `Math.round` on rationals: round half toward positive infinity. -/
def jsRound (q : ℚ) : ℤ := ⌊q + 1/2⌋

/-- JavaScript `Math.round` on reals (used where the source mixes
`Math.pow` results into the arithmetic). -/
noncomputable def jsRoundR (x : ℝ) : ℤ := ⌊x + 1/2⌋

/-- `Math.max(lo, Math.min(v, hi))` on integers, the clamping idiom used by
both crop modules. -/
def clampI (v lo hi : ℤ) : ℤ := max lo (min v hi)

/-! ## Crop model

`CropRegion` is the `{x, y, width, height}` rectangle of `src/types`. -/

structure CropRegion where
  x : ℤ
  y : ℤ
  width : ℤ
  height : ℤ
deriving DecidableEq

/-- Shared crop-dimension computation (identical in `calculateCropRegion` of
`src/lib/ffmpeg/crop.ts` and `calculateOptimalCrop` of the MediaPipe cropper):
target aspect 9/16; if the video is wider than 9:16 keep the height and set
`cropWidth = Math.round(videoHeight * 9/16)`, otherwise keep the width and set
`cropHeight = Math.round(videoWidth / (9/16))`.  Returns (width, height). -/
def cropDims (videoWidth videoHeight : ℤ) : ℤ × ℤ :=
  if (videoWidth : ℚ) / videoHeight > 9 / 16 then
    (jsRound ((videoHeight : ℚ) * (9 / 16)), videoHeight)
  else
    (videoWidth, jsRound ((videoWidth : ℚ) / (9 / 16)))

/-- `calculateCropRegion` from `src/lib/ffmpeg/crop.ts`: center crop by
default; when a face center is provided, put it at the horizontal center and
the vertical upper third of the crop, clamped into the frame. -/
def calculateCropRegion (videoWidth videoHeight : ℤ)
    (faceCenter : Option (ℚ × ℚ)) : CropRegion :=
  let cw := (cropDims videoWidth videoHeight).1
  let ch := (cropDims videoWidth videoHeight).2
  match faceCenter with
  | none =>
      { x := jsRound (((videoWidth : ℚ) - cw) / 2)
        y := jsRound (((videoHeight : ℚ) - ch) / 2)
        width := cw, height := ch }
  | some fc =>
      { x := clampI (jsRound (fc.1 - (cw : ℚ) / 2)) 0 (videoWidth - cw)
        y := clampI (jsRound (fc.2 - (ch : ℚ) / 3)) 0 (videoHeight - ch)
        width := cw, height := ch }

/-- The average face center computed by `smartCrop` in
`src/lib/ffmpeg/crop.ts`: filter out `null` detections and, if any remain,
take the plain arithmetic mean (a `reduce` sum divided by the count);
otherwise `undefined`. -/
def smartCropCenter (faceCenters : List (Option (ℚ × ℚ))) : Option (ℚ × ℚ) :=
  let valid := faceCenters.filterMap id
  if valid.length > 0 then
    some (valid.foldl (fun s c => s + c.1) 0 / valid.length,
          valid.foldl (fun s c => s + c.2) 0 / valid.length)
  else none

/-- The crop rectangle `smartCrop` actually applies: `calculateCropRegion`
at the average center.  This is the rectangle the `ProcessStep` pipeline
applies to each clip (it calls `smartCrop`, not `calculateOptimalCrop`). -/
def smartCropRegion (faceCenters : List (Option (ℚ × ℚ)))
    (videoWidth videoHeight : ℤ) : CropRegion :=
  calculateCropRegion videoWidth videoHeight (smartCropCenter faceCenters)

/-- The recency weights of `calculateOptimalCrop` (MediaPipe cropper):
`weights[i] = Math.pow(1.2, i / n)` over the `n` valid centers. -/
noncomputable def recencyWeights (n : ℕ) : List ℝ :=
  (List.range n).map (fun i => (1.2 : ℝ) ^ ((i : ℝ) / (n : ℝ)))

/-- The confidence-and-recency weighted centroid of `calculateOptimalCrop`:
`reduce((sum, c, i) => sum + c.x * weights[i]) / totalWeight` in each axis. -/
noncomputable def weightedCentroid (valid : List (ℝ × ℝ)) : ℝ × ℝ :=
  let ws := recencyWeights valid.length
  let totalWeight := ws.sum
  ((List.zipWith (fun c w => c.1 * w) valid ws).sum / totalWeight,
   (List.zipWith (fun c w => c.2 * w) valid ws).sum / totalWeight)

/-- `calculateOptimalCrop` from the MediaPipe cropper: target the weighted
centroid of the valid face centers, defaulting to the horizontal center and
the vertical upper third (`videoHeight / 3`) when no face was detected; place
the target at the horizontal center and vertical upper third of the crop and
clamp into the frame. -/
noncomputable def calculateOptimalCrop (faceCenters : List (Option (ℝ × ℝ)))
    (videoWidth videoHeight : ℤ) : CropRegion :=
  let valid := faceCenters.filterMap id
  let cw := (cropDims videoWidth videoHeight).1
  let ch := (cropDims videoWidth videoHeight).2
  let target : ℝ × ℝ :=
    if 0 < valid.length then weightedCentroid valid
    else ((videoWidth : ℝ) / 2, (videoHeight : ℝ) / 3)
  { x := clampI (jsRoundR (target.1 - (cw : ℝ) / 2)) 0 (videoWidth - cw)
    y := clampI (jsRoundR (target.2 - (ch : ℝ) / 3)) 0 (videoHeight - ch)
    width := cw, height := ch }

/-- Rendering of the specification's words for the no-detection fallback
(spec, Smart Cropper): target the frame's horizontal center and vertical
upper third, placing the target at the horizontal center and vertical
upper third of the crop, clamped into the frame.  Stated over `ℚ` so it is
decidable; used to compare the pipeline's applied rectangle against the
spec's description. -/
def upperThirdFallback (videoWidth videoHeight : ℤ) : CropRegion :=
  let cw := (cropDims videoWidth videoHeight).1
  let ch := (cropDims videoWidth videoHeight).2
  { x := clampI (jsRound ((videoWidth : ℚ) / 2 - (cw : ℚ) / 2)) 0 (videoWidth - cw)
    y := clampI (jsRound ((videoHeight : ℚ) / 3 - (ch : ℚ) / 3)) 0 (videoHeight - ch)
    width := cw, height := ch }

/-! ## Duration matcher (`src/lib/ffmpeg/timestretch.ts`, `adjustDuration`) -/

/-- `speedFactor = currentDuration / targetDuration`. -/
def speedFactor (currentDuration targetDuration : ℚ) : ℚ :=
  currentDuration / targetDuration

/-- `clampedSpeed = Math.max(0.5, Math.min(2.0, speedFactor))`. -/
def clampedSpeed (currentDuration targetDuration : ℚ) : ℚ :=
  max (1/2) (min 2 (speedFactor currentDuration targetDuration))

/-- `ptsMultiplier = 1 / clampedSpeed` — the factor written into the
`setpts` video filter (the applied playback speed is its inverse,
i.e. `clampedSpeed`). -/
def ptsMultiplier (currentDuration targetDuration : ℚ) : ℚ :=
  1 / clampedSpeed currentDuration targetDuration

/-! ## Caption generator (`src/lib/utils/captions.ts`)

Words are split as in `text.trim().split(/\s+/).filter(Boolean)`: the
maximal runs of non-whitespace characters.  We implement the splitting by
structural recursion over the character list so that concrete inputs
evaluate. -/

/-- Splitting helper: `acc` holds the current word's characters in reverse. -/
def splitWordsAux : List Char → List Char → List String
  | [], acc => if acc = [] then [] else [⟨acc.reverse⟩]
  | c :: cs, acc =>
      if c.isWhitespace then
        if acc = [] then splitWordsAux cs []
        else ⟨acc.reverse⟩ :: splitWordsAux cs []
      else splitWordsAux cs (c :: acc)

/-- `text.trim().split(/\s+/).filter(Boolean)`: the list of
whitespace-delimited words of `text` (empty strings removed). -/
def splitWords (text : String) : List String :=
  splitWordsAux text.data []

/-- Last character test used for the pause bonuses
(`word.endsWith('.')` for a one-character suffix). -/
def endsWithChar (w : String) (c : Char) : Bool :=
  w.data.getLast? = some c

/-- Per-word duration weight of `estimateWordTimings`: character count,
plus 3 for a sentence-ending word (`.` `!` `?`), else plus 1.5 for a
clause-ending word (`,` `;` `:`). -/
def wordWeight (w : String) : ℚ :=
  if endsWithChar w '.' || endsWithChar w '!' || endsWithChar w '?' then
    (w.data.length : ℚ) + 3
  else if endsWithChar w ',' || endsWithChar w ';' || endsWithChar w ':' then
    (w.data.length : ℚ) + 3/2
  else (w.data.length : ℚ)

/-- `CaptionWord` of `src/types`: one displayed word with its window. -/
structure CaptionWord where
  text : String
  startTime : ℚ
  endTime : ℚ
deriving DecidableEq

/-- The accumulation loop of `estimateWordTimings`: each word gets the
window `[currentTime, currentTime + weight * timePerWeight)` and
`currentTime` advances by the word's duration. -/
def buildTimings (timePerWeight : ℚ) : List String → ℚ → List CaptionWord
  | [], _ => []
  | w :: ws, currentTime =>
      { text := w, startTime := currentTime
        endTime := currentTime + wordWeight w * timePerWeight }
        :: buildTimings timePerWeight ws (currentTime + wordWeight w * timePerWeight)

/-- The final fix-up of `estimateWordTimings`: force the last word's
`endTime` to the exact segment end. -/
def setLastEnd : List CaptionWord → ℚ → List CaptionWord
  | [], _ => []
  | [w], e => [{ w with endTime := e }]
  | w :: w' :: ws, e => w :: setLastEnd (w' :: ws) e

/-- `estimateWordTimings(text, startTime, duration)` from
`src/lib/utils/captions.ts`. -/
def estimateWordTimings (text : String) (startTime duration : ℚ) :
    List CaptionWord :=
  let words := splitWords text
  if words = [] then []
  else
    let totalWeight := (words.map wordWeight).sum
    let timePerWeight := duration / totalWeight
    setLastEnd (buildTimings timePerWeight words startTime) (startTime + duration)

/-- `SegmentCaptions` of `src/types`. -/
structure SegmentCaptions where
  segmentId : String
  words : List CaptionWord
deriving DecidableEq

/-- `generateCaptions(segments, durations)` from
`src/lib/utils/captions.ts`: per segment, time the words at the cumulative
offset; `durations[i] || 3` falls back to 3 seconds when the entry is
missing or zero (JavaScript falsiness). -/
def generateCaptionsFrom :
    List (String × String) → List ℚ → ℚ → List SegmentCaptions
  | [], _, _ => []
  | (segId, script) :: rest, ds, cumulativeTime =>
      let duration := match ds.head? with
        | some d => if d = 0 then 3 else d
        | none => 3
      { segmentId := segId
        words := estimateWordTimings script cumulativeTime duration }
        :: generateCaptionsFrom rest ds.tail (cumulativeTime + duration)

/-- `generateCaptions(segments, durations)`: run the timing loop from a
zero cumulative offset. -/
def generateCaptions (segments : List (String × String)) (durations : List ℚ) :
    List SegmentCaptions :=
  generateCaptionsFrom segments durations 0

/-! ## Stitcher audio model

The browser stitcher (`stitchSegments`) concatenates the per-segment
voiceover tracks with the ffmpeg `concat` audio filter, and — when music is
present — runs the filter graph

  `[n:a]volume=V[music];[voiceover][music]amix=inputs=2:duration=first[aout]`

with output option `-t totalDuration`, where `totalDuration` is the sum of
the segments' declared durations.  We give the requested filters their
denotational semantics on sample lists: `volume` scales every sample,
`amix` with `duration=first` adds the inputs sample-wise and keeps the
first input's length (the shorter input is padded with silence), `-t`
truncates.  An `AudioTrack` is the list of samples at a fixed rate. -/

abbrev AudioTrack := List ℚ

/-- The `volume=V` filter: scale every sample by the gain. -/
def volumeFilter (gain : ℚ) (t : AudioTrack) : AudioTrack :=
  t.map (fun s => gain * s)

/-- The `amix=inputs=2:duration=first` filter: sample-wise sum, output
length that of the first input (second input padded with silence). -/
def amixFirst : AudioTrack → AudioTrack → AudioTrack
  | [], _ => []
  | a :: as, [] => a :: amixFirst as []
  | a :: as, b :: bs => (a + b) :: amixFirst as bs

/-- One stitcher input: a voiceover track and the segment's declared
duration (in samples here), as in the `StitchSegment` records. -/
structure StitchSeg where
  audio : AudioTrack
  duration : ℕ

/-- The mixed audio the browser stitcher produces (`audio_mixed.wav`):
the concatenated voiceover when no music is given; otherwise the voiceover
`amix`-ed with the gain-scaled music, truncated by `-t` to the sum of the
declared segment durations. -/
def stitchMixedTrack (segments : List StitchSeg) (backgroundMusic : Option AudioTrack)
    (musicVolume : ℚ) : AudioTrack :=
  let voiceover := (segments.map StitchSeg.audio).flatten
  match backgroundMusic with
  | none => voiceover
  | some music =>
      (amixFirst voiceover (volumeFilter musicVolume music)).take
        ((segments.map StitchSeg.duration).sum)

/-! ## Scratch files and ffmpeg-backed steps

The ffmpeg WASM wrapper (`src/lib/ffmpeg/client.ts`, not included under
`src/`) is modelled from the spec: `writeFile` creates a scratch file,
`readFile` succeeds exactly when the file exists, and `deleteFile` releases
a scratch file (idempotent, per the spec's idempotent-cleanup property).
The engine itself is an oracle: it sees the actual source video (its
duration) and the argument list, and either succeeds and writes the output
file, returns without producing the output, or throws. -/

/-- The working filesystem: the list of files currently present. -/
abbrev FS := List String

/-- `writeFile`: create the file (no duplicates). -/
def insertF (f : String) (fs : FS) : FS := if f ∈ fs then fs else fs ++ [f]

/-- `deleteFile`: release the file (idempotent). -/
def removeF (f : String) (fs : FS) : FS := fs.erase f

/-- Possible behaviours of one `ffmpeg.exec` call, decided by the engine:
it may succeed and write the output file, finish without writing the output
(e.g. nothing was encoded), or throw. -/
inductive ExecOutcome | success | failNoOutput | throwErr
deriving DecidableEq

/-- Errors a media step can propagate.  `outOfRange` is the error named by
the specification (`OutOfRangeError`); no code path of the repository
constructs it — it is included so the claim is statable. -/
inductive MediaErr
  | execFail
  | readFail (name : String)
  | outOfRange
deriving DecidableEq

/-- An engine oracle: given the actual source video's duration and the
argument list, choose the outcome of the exec call. -/
abbrev Engine := ℚ → List String → ExecOutcome

/-- Argument list built by the browser `extractClip`
(`src/lib/ffmpeg/extract.ts`) — note that no argument depends on the
source video's duration. -/
def clientExtractArgs (startTime duration : ℚ) : List String :=
  ["-ss", toString startTime, "-i", "input.mp4", "-t", toString duration,
   "-an", "-c:v", "libx264", "-preset", "fast", "-crf", "23", "-y", "clip.mp4"]

/-- Argument list built by the server processor's `extractClip`. -/
def serverExtractArgs (startTime duration : ℚ) (outputName : String) :
    List String :=
  ["-ss", toString startTime, "-i", "input.mp4", "-t", toString duration,
   "-c:v", "libx264", "-preset", "fast", "-c:a", "aac", "-y", outputName]

/-- Shape of the browser-side media steps (`extractClip`, `cropVideo`,
`adjustDuration`): write the input, exec, read the output, and release both
scratch files in a `finally` block — also when the exec or the read
throws. -/
def ffmpegStepFinally (videoDuration : ℚ) (engine : Engine) (args : List String)
    (inputName outputName : String) (fs : FS) : Except MediaErr Unit × FS :=
  let fs1 := insertF inputName fs
  match engine videoDuration args with
  | ExecOutcome.success =>
      (Except.ok (), removeF outputName (removeF inputName (insertF outputName fs1)))
  | ExecOutcome.failNoOutput =>
      (Except.error (MediaErr.readFail outputName), removeF outputName (removeF inputName fs1))
  | ExecOutcome.throwErr =>
      (Except.error MediaErr.execFail, removeF outputName (removeF inputName fs1))

/-- Shape of the server processor's media steps (`extractClip`,
`applyCrop`, `adjustDuration` in the processor): write the input, exec,
read the output, then delete both scratch files — with no `finally`, so an
exec or read failure skips the cleanup. -/
def ffmpegStepNoFinally (videoDuration : ℚ) (engine : Engine) (args : List String)
    (inputName outputName : String) (fs : FS) : Except MediaErr Unit × FS :=
  let fs1 := insertF inputName fs
  match engine videoDuration args with
  | ExecOutcome.success =>
      (Except.ok (), removeF outputName (removeF inputName (insertF outputName fs1)))
  | ExecOutcome.failNoOutput =>
      (Except.error (MediaErr.readFail outputName), fs1)
  | ExecOutcome.throwErr =>
      (Except.error MediaErr.execFail, fs1)

/-- Browser `extractClip(videoFile, startTime, duration)`,
`src/lib/ffmpeg/extract.ts`: scratch files `input.mp4` and `clip.mp4`,
released in `finally`. -/
def clientExtractClip (videoDuration : ℚ) (engine : Engine)
    (startTime duration : ℚ) (fs : FS) : Except MediaErr Unit × FS :=
  ffmpegStepFinally videoDuration engine (clientExtractArgs startTime duration)
    "input.mp4" "clip.mp4" fs

/-- Browser `cropVideo(videoBlob, cropRegion)`, `src/lib/ffmpeg/crop.ts`:
scratch files `input.mp4` and `cropped.mp4`, released in `finally`. -/
def clientCropVideo (videoDuration : ℚ) (engine : Engine) (fs : FS) :
    Except MediaErr Unit × FS :=
  ffmpegStepFinally videoDuration engine ["-i", "input.mp4", "-y", "cropped.mp4"]
    "input.mp4" "cropped.mp4" fs

/-- Browser `adjustDuration(videoBlob, targetDuration, currentDuration)`,
`src/lib/ffmpeg/timestretch.ts`: scratch files `input.mp4` and
`adjusted.mp4`, released in `finally`. -/
def clientAdjustDuration (videoDuration : ℚ) (engine : Engine) (fs : FS) :
    Except MediaErr Unit × FS :=
  ffmpegStepFinally videoDuration engine ["-i", "input.mp4", "-y", "adjusted.mp4"]
    "input.mp4" "adjusted.mp4" fs

/-- Server `extractClip(ffmpeg, videoData, startTime, duration, outputName)`
in the processor: scratch files `input.mp4` and the given output name,
deleted only after a successful read. -/
def serverExtractClip (videoDuration : ℚ) (engine : Engine)
    (startTime duration : ℚ) (outputName : String) (fs : FS) :
    Except MediaErr Unit × FS :=
  ffmpegStepNoFinally videoDuration engine
    (serverExtractArgs startTime duration outputName) "input.mp4" outputName fs

/-- Server `applyCrop(ffmpeg, clipData, outputName)` in the processor. -/
def serverApplyCrop (videoDuration : ℚ) (engine : Engine) (outputName : String)
    (fs : FS) : Except MediaErr Unit × FS :=
  ffmpegStepNoFinally videoDuration engine ["-i", "clip_input.mp4", "-y", outputName]
    "clip_input.mp4" outputName fs

/-- The server processor's extraction loop over the segments'
`sourceTimestamp`s (output names `clip_0.mp4`, `clip_1.mp4`, …); the first
failing step aborts the stage. -/
def runExtractionStageFrom (videoDuration : ℚ) (engine : Engine) (i : ℕ) :
    List ℚ → FS → Except MediaErr FS
  | [], fs => Except.ok fs
  | t :: ts, fs =>
      let r := serverExtractClip videoDuration engine t 10
        ("clip_" ++ toString i ++ ".mp4") fs
      match r.1 with
      | Except.ok _ => runExtractionStageFrom videoDuration engine (i + 1) ts r.2
      | Except.error e => Except.error e

/-- Terminal job record fields written by the processor's `try`/`catch`
(`completeJob` on success; `failJob` on any thrown error, which stores the
error value — `job-store.ts`). -/
structure JobFinal where
  status : String
  errorVal : Option MediaErr
deriving DecidableEq

/-- `processVideo`'s terminal write: `completeJob` on success, `failJob`
with the caught error on failure. -/
def processVideoOutcome (r : Except MediaErr String) : JobFinal :=
  match r with
  | Except.ok _ => { status := "complete", errorVal := none }
  | Except.error e => { status := "error", errorVal := some e }

/-! ## Processing stages and progress reporting

`ProcessingStage` of `src/lib/server/types.ts`;
`queued → loading → tts → extracting → detecting → cropping → stitching →
complete` is the forward order, `error` the escape. -/

inductive Stage
  | queued | loading | tts | extracting | detecting | cropping
  | stitching | complete | error
deriving DecidableEq

/-- Position of a stage in the forward order (the `error` escape last). -/
def stageIdx : Stage → ℕ
  | Stage.queued => 0
  | Stage.loading => 1
  | Stage.tts => 2
  | Stage.extracting => 3
  | Stage.detecting => 4
  | Stage.cropping => 5
  | Stage.stitching => 6
  | Stage.complete => 7
  | Stage.error => 8

/-- One status update: the stage and the reported progress percentage. -/
abbrev StatusUpdate := Stage × ℚ

/-- The monotonicity relation between two successive status updates, as the
specification states it: within the same stage progress never decreases;
otherwise the stage strictly advances in the forward order; the transition
to `error` is allowed from any non-terminal state. -/
def stepOK (a b : StatusUpdate) : Prop :=
  if b.1 = Stage.error then a.1 ≠ Stage.complete ∧ a.1 ≠ Stage.error
  else if a.1 = b.1 then a.2 ≤ b.2
  else stageIdx a.1 < stageIdx b.1

instance : DecidableRel stepOK := fun a b => by
  unfold stepOK
  infer_instance

/-- A status-update sequence is monotone when every successive pair
satisfies `stepOK`. -/
def statusMonotone (updates : List StatusUpdate) : Prop :=
  List.Chain' stepOK updates

instance (updates : List StatusUpdate) : Decidable (statusMonotone updates) := by
  unfold statusMonotone
  infer_instance

/-- The sequence of `(stage, progress)` pairs the server processor
(`processVideo`) writes through `updateJobProgress`/`completeJob` on a
successful run over `n` segments (music stage update only when a music URL
is present), in program order:

* loading 0, loading 100;
* extracting 0 and extracting 20 for the source-video download;
* tts 0, then per segment `tts ((i+1)/n)·100`;
* detecting 0, then per segment `detecting p·0.5`, `cropping p·0.7`,
  `cropping p·0.9` with `p = ((i+1)/n)·100`;
* optionally stitching 0 (music download), then stitching 20,
  stitching 80, and `completeJob`'s complete 100. -/
def serverUpdates (n : ℕ) (hasMusic : Bool) : List StatusUpdate :=
  [(Stage.loading, 0), (Stage.loading, 100),
   (Stage.extracting, 0), (Stage.extracting, 20), (Stage.tts, 0)]
  ++ (List.range n).map (fun (i : ℕ) => (Stage.tts, ((i : ℚ) + 1) / n * 100))
  ++ [(Stage.detecting, 0)]
  ++ (List.range n).flatMap (fun (i : ℕ) =>
      [(Stage.detecting, ((i : ℚ) + 1) / n * 100 * (1/2)),
       (Stage.cropping, ((i : ℚ) + 1) / n * 100 * (7/10)),
       (Stage.cropping, ((i : ℚ) + 1) / n * 100 * (9/10))])
  ++ (if hasMusic then [(Stage.stitching, 0)] else [])
  ++ [(Stage.stitching, 20), (Stage.stitching, 80), (Stage.complete, 100)]

/-- The sequence of `(stage, progress)` pairs the client orchestrator
(`ProcessStep.processVideo`) pushes through `updateProgress` on a
successful run over `n` segments, in program order. -/
def clientUpdates (n : ℕ) : List StatusUpdate :=
  [(Stage.loading, 0), (Stage.loading, 100), (Stage.tts, 0)]
  ++ (List.range n).map (fun (i : ℕ) => (Stage.tts, (i : ℚ) / n * 100))
  ++ [(Stage.tts, 100), (Stage.extracting, 0)]
  ++ (List.range n).map (fun (i : ℕ) => (Stage.extracting, (i : ℚ) / n * 100))
  ++ [(Stage.extracting, 100), (Stage.detecting, 0)]
  ++ (List.range n).map (fun (i : ℕ) => (Stage.detecting, (i : ℚ) / n * 100))
  ++ [(Stage.detecting, 100), (Stage.stitching, 0), (Stage.complete, 100)]

/-! # Claims -/

/-! ## C4 — duration-matcher clamp -/

/-- C4: for every `(current, target)` duration pair with `target > 0`, the
duration matcher computes the playback-speed multiplier as `current/target`
clamped to `[0.5, 2.0]`: the applied speed factor always lies in
`[0.5, 2.0]`, and it equals `current/target` whenever that ratio is already
inside the interval. -/
theorem adjustDuration_clamp (current target : ℚ) (htarget : 0 < target) :
    (1/2 ≤ clampedSpeed current target ∧ clampedSpeed current target ≤ 2) ∧
    (1/2 ≤ current / target → current / target ≤ 2 →
      clampedSpeed current target = current / target) := by
  refine ⟨⟨le_max_left _ _, max_le (by norm_num) (min_le_left _ _)⟩, ?_⟩
  intro h1 h2
  rw [clampedSpeed, speedFactor, min_eq_right h2, max_eq_right h1]

/-- Witness for `adjustDuration_clamp` at `current = 10`, `target = 2`
(natural ratio 5, clamped). -/
theorem adjustDuration_clamp_witness :
    (0 : ℚ) < 2 ∧
    ((1/2 ≤ clampedSpeed 10 2 ∧ clampedSpeed 10 2 ≤ 2) ∧
      (1/2 ≤ (10 : ℚ) / 2 → (10 : ℚ) / 2 ≤ 2 →
        clampedSpeed 10 2 = (10 : ℚ) / 2)) :=
  ⟨by norm_num, adjustDuration_clamp 10 2 (by norm_num)⟩

/-! ## C1 — out-of-range extraction

The repository defines no `OutOfRangeError` and `extractClip` never
compares `startTime` with the source duration (the argument lists
`clientExtractArgs`/`serverExtractArgs` contain no such datum), so whether
an out-of-range window fails is decided entirely by the ffmpeg engine. -/

/-- C1 counterexample: with a 5-second source and an engine that encodes
whatever it is asked (as the code permits — there is no range check),
requesting the window `[1000, 1010)`, which lies entirely beyond the
source's end, still returns a successful clip from both the browser and the
server extractor. -/
theorem extractClip_out_of_range_can_succeed :
    (5 : ℚ) < 1000 ∧
    (clientExtractClip 5 (fun _ _ => ExecOutcome.success) 1000 10 []).1
      = Except.ok () ∧
    (serverExtractClip 5 (fun _ _ => ExecOutcome.success) 1000 10
      "clip_0.mp4" []).1 = Except.ok () :=
  ⟨by norm_num, rfl, rfl⟩

/-- C1 amended: `extractClip` performs no range validation of its own and
the repository defines no `OutOfRangeError`; for a window entirely beyond
the source's end it returns whatever the engine produces — never an
`outOfRange` error — and when a step does fail, the processor's `catch`
writes the terminal `error` status carrying that error (not a
segment-identifying message). -/
theorem extractClip_no_out_of_range_error (videoDuration : ℚ) (engine : Engine)
    (startTime duration : ℚ) (outputName : String) (fs : FS)
    (hbeyond : videoDuration < startTime) :
    (clientExtractClip videoDuration engine startTime duration fs).1
      ≠ Except.error MediaErr.outOfRange ∧
    (serverExtractClip videoDuration engine startTime duration outputName fs).1
      ≠ Except.error MediaErr.outOfRange ∧
    ∀ e : MediaErr, processVideoOutcome (Except.error e)
      = { status := "error", errorVal := some e } := by
  refine ⟨?_, ?_, fun e => rfl⟩
  · rw [clientExtractClip, ffmpegStepFinally]
    cases engine videoDuration (clientExtractArgs startTime duration) <;> simp
  · rw [serverExtractClip, ffmpegStepNoFinally]
    cases engine videoDuration (serverExtractArgs startTime duration outputName) <;> simp

/-- Witness for `extractClip_no_out_of_range_error` at source duration 5,
start time 1000, with an engine that throws. -/
theorem extractClip_no_out_of_range_error_witness :
    (5 : ℚ) < 1000 ∧
    ((clientExtractClip 5 (fun _ _ => ExecOutcome.throwErr) 1000 10 []).1
        ≠ Except.error MediaErr.outOfRange ∧
      (serverExtractClip 5 (fun _ _ => ExecOutcome.throwErr) 1000 10
          "clip_0.mp4" []).1 ≠ Except.error MediaErr.outOfRange ∧
      ∀ e : MediaErr, processVideoOutcome (Except.error e)
        = { status := "error", errorVal := some e }) :=
  ⟨by norm_num,
    extractClip_no_out_of_range_error 5 (fun _ _ => ExecOutcome.throwErr)
      1000 10 "clip_0.mp4" [] (by norm_num)⟩

/-! ## C10 — scratch-file release -/

theorem mem_insertF {g f : String} {fs : FS} :
    g ∈ insertF f fs ↔ g = f ∨ g ∈ fs := by
  rw [insertF]
  split
  · next h => simp only [iff_def]; exact ⟨Or.inr, fun hg => hg.elim (fun e => e ▸ h) id⟩
  · simp [or_comm]

theorem mem_removeF {g f : String} {fs : FS} (h : g ∈ removeF f fs) : g ∈ fs :=
  List.mem_of_mem_erase h

theorem insertF_nodup {f : String} {fs : FS} (h : fs.Nodup) :
    (insertF f fs).Nodup := by
  rw [insertF]
  split
  · exact h
  · next hmem =>
      simp only [List.nodup_append, List.nodup_singleton, true_and]
      refine ⟨h, ?_⟩
      intro a ha hb
      simp only [List.mem_singleton] at hb
      exact hmem (hb ▸ ha)

theorem not_mem_removeF_self {f : String} {fs : FS} (h : fs.Nodup) :
    f ∉ removeF f fs :=
  List.Nodup.not_mem_erase h

/-- After releasing both scratch names from a duplicate-free filesystem
extending the initial one only by those names, neither scratch file remains
and nothing new survives. -/
theorem cleanup_inv (i o : String) (gs fs : FS) (hnd : gs.Nodup)
    (hsub : ∀ f ∈ gs, f = i ∨ f = o ∨ f ∈ fs) :
    i ∉ removeF o (removeF i gs) ∧ o ∉ removeF o (removeF i gs) ∧
    ∀ f ∈ removeF o (removeF i gs), f ∈ fs := by
  have hnd1 : (removeF i gs).Nodup := List.Nodup.erase _ hnd
  have hi : i ∉ removeF i gs := not_mem_removeF_self hnd
  have ho : o ∉ removeF o (removeF i gs) := not_mem_removeF_self hnd1
  refine ⟨fun hmem => hi (mem_removeF hmem), ho, ?_⟩
  intro f hf
  have hfo : f ≠ o := by
    intro e
    rw [e] at hf
    exact ho hf
  have hfi : f ≠ i := by
    intro e
    rw [e] at hf
    exact hi (mem_removeF hf)
  rcases hsub f (mem_removeF (mem_removeF hf)) with h | h | h
  · exact absurd h hfi
  · exact absurd h hfo
  · exact h

/-- The `finally`-shaped steps release both scratch files and leave no new
file behind, on every engine outcome. -/
theorem ffmpegStepFinally_scratch (videoDuration : ℚ) (engine : Engine)
    (args : List String) (i o : String) (fs : FS) (hnd : fs.Nodup) :
    i ∉ (ffmpegStepFinally videoDuration engine args i o fs).2 ∧
    o ∉ (ffmpegStepFinally videoDuration engine args i o fs).2 ∧
    ∀ f ∈ (ffmpegStepFinally videoDuration engine args i o fs).2, f ∈ fs := by
  rw [ffmpegStepFinally]
  have hsub1 : ∀ f ∈ insertF o (insertF i fs), f = i ∨ f = o ∨ f ∈ fs := by
    intro f hf
    rcases mem_insertF.mp hf with h | h
    · exact Or.inr (Or.inl h)
    · rcases mem_insertF.mp h with h' | h'
      · exact Or.inl h'
      · exact Or.inr (Or.inr h')
  have hsub2 : ∀ f ∈ insertF i fs, f = i ∨ f = o ∨ f ∈ fs := by
    intro f hf
    rcases mem_insertF.mp hf with h | h
    · exact Or.inl h
    · exact Or.inr (Or.inr h)
  cases engine videoDuration args
  · exact cleanup_inv i o _ fs (insertF_nodup (insertF_nodup hnd)) hsub1
  · exact cleanup_inv i o _ fs (insertF_nodup hnd) hsub2
  · exact cleanup_inv i o _ fs (insertF_nodup hnd) hsub2

/-- C10 counterexample: the server processor's `extractClip` has no
`finally`; when the ffmpeg exec throws on a clean filesystem, the step
returns the error while its scratch file `input.mp4` is still present. -/
theorem serverExtractClip_leaks_scratch :
    (serverExtractClip 60 (fun _ _ => ExecOutcome.throwErr) 0 10
      "clip_0.mp4" []).1 = Except.error MediaErr.execFail ∧
    (serverExtractClip 60 (fun _ _ => ExecOutcome.throwErr) 0 10
      "clip_0.mp4" []).2 = ["input.mp4"] :=
  ⟨rfl, rfl⟩

/-- C10 amended: the browser-side per-segment media steps (`extractClip`,
`cropVideo`, `adjustDuration`) release both scratch files on every path —
success, missing output, or thrown exec; the server processor's
corresponding steps release them only on the success path, and after a
failed exec or read the written `input.mp4` remains in the filesystem. -/
theorem media_steps_scratch_release (videoDuration : ℚ) (engine : Engine)
    (startTime duration : ℚ) (outputName : String) (fs : FS)
    (hnd : fs.Nodup) :
    (∀ f ∈ (clientExtractClip videoDuration engine startTime duration fs).2,
        f ∈ fs) ∧
    "input.mp4" ∉ (clientExtractClip videoDuration engine startTime duration fs).2 ∧
    "clip.mp4" ∉ (clientExtractClip videoDuration engine startTime duration fs).2 ∧
    "input.mp4" ∉ (clientCropVideo videoDuration engine fs).2 ∧
    "cropped.mp4" ∉ (clientCropVideo videoDuration engine fs).2 ∧
    "input.mp4" ∉ (clientAdjustDuration videoDuration engine fs).2 ∧
    "adjusted.mp4" ∉ (clientAdjustDuration videoDuration engine fs).2 ∧
    (engine videoDuration (serverExtractArgs startTime duration outputName)
        ≠ ExecOutcome.success →
      "input.mp4" ∈ (serverExtractClip videoDuration engine startTime duration
        outputName fs).2) := by
  have h1 := ffmpegStepFinally_scratch videoDuration engine
    (clientExtractArgs startTime duration) "input.mp4" "clip.mp4" fs hnd
  have h2 := ffmpegStepFinally_scratch videoDuration engine
    ["-i", "input.mp4", "-y", "cropped.mp4"] "input.mp4" "cropped.mp4" fs hnd
  have h3 := ffmpegStepFinally_scratch videoDuration engine
    ["-i", "input.mp4", "-y", "adjusted.mp4"] "input.mp4" "adjusted.mp4" fs hnd
  refine ⟨h1.2.2, h1.1, h1.2.1, h2.1, h2.2.1, h3.1, h3.2.1, ?_⟩
  intro hfail
  rw [serverExtractClip, ffmpegStepNoFinally]
  cases hcase : engine videoDuration (serverExtractArgs startTime duration outputName)
  · exact absurd hcase hfail
  · exact mem_insertF.mpr (Or.inl rfl)
  · exact mem_insertF.mpr (Or.inl rfl)

/-- Witness for `media_steps_scratch_release` on the empty filesystem with
a throwing engine: the browser extractor leaves nothing behind while the
server extractor leaves `input.mp4`. -/
theorem media_steps_scratch_release_witness :
    ("input.mp4" ∉ (clientExtractClip 60 (fun _ _ => ExecOutcome.throwErr) 0 10 []).2) ∧
    ("input.mp4" ∈ (serverExtractClip 60 (fun _ _ => ExecOutcome.throwErr) 0 10
      "clip_0.mp4" []).2) := by
  have h := media_steps_scratch_release 60 (fun _ _ => ExecOutcome.throwErr)
    0 10 "clip_0.mp4" [] List.nodup_nil
  exact ⟨h.2.1, h.2.2.2.2.2.2.2 (by intro hcontra; cases hcontra)⟩

/-! ## C8 — background-music mixing -/

theorem length_amixFirst (a b : AudioTrack) :
    (amixFirst a b).length = a.length := by
  induction a generalizing b with
  | nil => cases b <;> rfl
  | cons x xs ih =>
      cases b with
      | nil => simpa [amixFirst] using ih []
      | cons y ys => simpa [amixFirst] using ih ys

theorem getD_amixFirst (a b : AudioTrack) (i : ℕ) (h : i < a.length) :
    (amixFirst a b).getD i 0 = a.getD i 0 + b.getD i 0 := by
  induction a generalizing b i with
  | nil => simp at h
  | cons x xs ih =>
      cases b with
      | nil =>
          cases i with
          | zero => simp [amixFirst]
          | succ j =>
              simp only [amixFirst, List.getD_cons_succ]
              exact ih [] j (by simpa using h)
      | cons y ys =>
          cases i with
          | zero => simp [amixFirst]
          | succ j =>
              simp only [amixFirst, List.getD_cons_succ]
              exact ih ys j (by simpa using h)

theorem getD_volumeFilter (g : ℚ) (t : AudioTrack) (i : ℕ) :
    (volumeFilter g t).getD i 0 = g * t.getD i 0 := by
  induction t generalizing i with
  | nil => simp [volumeFilter]
  | cons x xs ih =>
      cases i with
      | zero => simp [volumeFilter]
      | succ j => simpa [volumeFilter] using ih j

/-- C8: when background music is supplied, the stitcher's mixed audio track
is the voiceover concatenation plus the gain-scaled music, sample for
sample, and its length never exceeds the voiceover track's length — in
particular a music asset longer than the voice track cannot extend the
output. -/
theorem stitch_music_bounded_mix (segments : List StitchSeg) (music : AudioTrack)
    (musicVolume : ℚ) :
    (stitchMixedTrack segments (some music) musicVolume).length ≤
      ((segments.map StitchSeg.audio).flatten).length ∧
    ∀ i : ℕ, i < (stitchMixedTrack segments (some music) musicVolume).length →
      (stitchMixedTrack segments (some music) musicVolume).getD i 0 =
        ((segments.map StitchSeg.audio).flatten).getD i 0
          + musicVolume * music.getD i 0 := by
  have hred : stitchMixedTrack segments (some music) musicVolume =
      (amixFirst ((segments.map StitchSeg.audio).flatten)
        (volumeFilter musicVolume music)).take
        ((segments.map StitchSeg.duration).sum) := rfl
  rw [hred]
  constructor
  · calc ((amixFirst ((segments.map StitchSeg.audio).flatten)
          (volumeFilter musicVolume music)).take
          ((segments.map StitchSeg.duration).sum)).length
        ≤ (amixFirst ((segments.map StitchSeg.audio).flatten)
            (volumeFilter musicVolume music)).length := by
          rw [List.length_take]; exact min_le_right _ _
      _ = ((segments.map StitchSeg.audio).flatten).length := length_amixFirst _ _
  · intro i hi
    rw [List.length_take, lt_min_iff] at hi
    have hlen : i < ((segments.map StitchSeg.audio).flatten).length := by
      rw [← length_amixFirst ((segments.map StitchSeg.audio).flatten)
        (volumeFilter musicVolume music)]
      exact hi.2
    rw [List.getD_eq_getElem?_getD, List.getElem?_take_of_lt hi.1,
      ← List.getD_eq_getElem?_getD, getD_amixFirst _ _ _ hlen, getD_volumeFilter]

/-- Witness for `stitch_music_bounded_mix`: one voiceover segment of two
samples against a three-sample music track at gain 1/2. -/
theorem stitch_music_bounded_mix_witness :
    ((stitchMixedTrack [⟨[1, 2], 2⟩] (some [4, 6, 8]) (1/2)).length ≤
      (([⟨[1, 2], 2⟩].map StitchSeg.audio).flatten).length) ∧
    (0 < (stitchMixedTrack [⟨[1, 2], 2⟩] (some [4, 6, 8]) (1/2)).length) ∧
    (stitchMixedTrack [⟨[1, 2], 2⟩] (some [4, 6, 8]) (1/2)).getD 0 0 =
      (([⟨[1, 2], 2⟩].map StitchSeg.audio).flatten).getD 0 0 + (1/2) * ([4, 6, 8] : AudioTrack).getD 0 0 := by
  have h := stitch_music_bounded_mix [⟨[1, 2], 2⟩] [4, 6, 8] (1/2)
  exact ⟨h.1, by decide, h.2 0 (by decide)⟩

/-! ## C2 — progress monotonicity -/

theorem stepOK_same (st : Stage) (hst : st ≠ Stage.error) {p q : ℚ}
    (h : p ≤ q) : stepOK (st, p) (st, q) := by
  rw [stepOK]
  dsimp only
  rw [if_neg hst, if_pos rfl]
  exact h

theorem stepOK_forward {s t : Stage} (ht : t ≠ Stage.error)
    (h : stageIdx s < stageIdx t) (p q : ℚ) : stepOK (s, p) (t, q) := by
  rw [stepOK]
  dsimp only
  rw [if_neg ht]
  split
  · next he => exact absurd h (by rw [he]; exact lt_irrefl _)
  · exact h

/-- C2 counterexample: the server processor's own update sequence for a
one-segment, no-music job is not monotone — it reports the source download
under stage `extracting` (progress 20) and then enters stage `tts`, a
backward stage transition. -/
theorem serverUpdates_not_monotone : ¬ statusMonotone (serverUpdates 1 false) := by
  intro hc
  have h := List.chain'_iff_get.mp hc 3 (by decide)
  have h' : stepOK (Stage.extracting, (20 : ℚ)) (Stage.tts, 0) := h
  rw [stepOK] at h'
  dsimp only at h'
  rw [if_neg (by decide), if_neg (by decide)] at h'
  exact absurd h' (by decide)

/-- One stage's worth of client updates: entry at progress 0, the
per-segment updates `(i/n)·100`, and the stage-exit update at 100. -/
def stageBlock (st : Stage) (n : ℕ) : List StatusUpdate :=
  (st, 0) :: ((List.range n).map (fun (i : ℕ) => (st, (i : ℚ) / n * 100)) ++ [(st, 100)])

theorem chain'_progress_map (st : Stage) (hst : st ≠ Stage.error) (g : ℕ → ℚ)
    (hg : ∀ i, g i ≤ g (i + 1)) (n : ℕ) :
    List.Chain' stepOK ((List.range n).map fun i => (st, g i)) := by
  rw [List.chain'_map]
  cases n with
  | zero => simp
  | succ m =>
      rw [List.chain'_range_succ]
      intro k _
      exact stepOK_same st hst (hg k)

theorem stageBlock_getLast (st : Stage) (n : ℕ) :
    (stageBlock st n).getLast? = some (st, 100) := by
  rw [stageBlock, ← List.cons_append, List.getLast?_concat]

theorem segment_progress_mono (n : ℕ) (i : ℕ) :
    (i : ℚ) / n * 100 ≤ ((i + 1 : ℕ) : ℚ) / n * 100 := by
  have hi : (i : ℚ) ≤ ((i + 1 : ℕ) : ℚ) := by push_cast; linarith
  have hn : (0 : ℚ) ≤ (n : ℚ)⁻¹ := inv_nonneg.mpr (by positivity)
  have h2 : (i : ℚ) * (n : ℚ)⁻¹ ≤ ((i + 1 : ℕ) : ℚ) * (n : ℚ)⁻¹ :=
    mul_le_mul_of_nonneg_right hi hn
  rw [div_eq_mul_inv, div_eq_mul_inv]
  exact mul_le_mul_of_nonneg_right h2 (by norm_num)

theorem chain'_stageBlock (st : Stage) (hst : st ≠ Stage.error) (n : ℕ) :
    List.Chain' stepOK (stageBlock st n) := by
  rw [stageBlock, List.chain'_cons']
  constructor
  · intro y hy
    cases n with
    | zero =>
        simp only [List.range_zero, List.map_nil, List.nil_append,
          List.head?_cons, Option.mem_def, Option.some.injEq] at hy
        subst hy
        exact stepOK_same st hst (by norm_num)
    | succ m =>
        rw [List.range_succ_eq_map] at hy
        simp only [List.map_cons, List.cons_append, List.head?_cons,
          Option.mem_def, Option.some.injEq] at hy
        subst hy
        exact stepOK_same st hst (by positivity)
  · apply List.chain'_append.mpr
    refine ⟨chain'_progress_map st hst _ (fun i => segment_progress_mono n i) n,
      List.chain'_singleton _, ?_⟩
    intro x hx y hy
    simp only [List.head?_cons, Option.mem_def, Option.some.injEq] at hy
    subst hy
    cases n with
    | zero => simp at hx
    | succ m =>
        rw [List.range_succ, List.map_append, List.map_singleton, List.getLast?_concat] at hx
        simp only [Option.mem_def, Option.some.injEq] at hx
        subst hx
        refine stepOK_same st hst ?_
        have hn : (0 : ℚ) < (m + 1 : ℕ) := by positivity
        rw [div_mul_eq_mul_div, div_le_iff₀ hn]
        push_cast
        nlinarith [hn]

theorem clientUpdates_eq_blocks (n : ℕ) :
    clientUpdates n =
      [(Stage.loading, 0), (Stage.loading, 100)] ++
        (stageBlock Stage.tts n ++
          (stageBlock Stage.extracting n ++
            (stageBlock Stage.detecting n ++
              [(Stage.stitching, 0), (Stage.complete, 100)]))) := by
  simp [clientUpdates, stageBlock]

/-- C2 amended: the claim holds for the client orchestrator
(`ProcessStep.processVideo`): across its entire update sequence, for any
number of segments, progress never decreases within a stage and the stage
only moves forward; the server processor's sequence violates the claim
(`serverUpdates_not_monotone`). -/
theorem clientUpdates_monotone (n : ℕ) : statusMonotone (clientUpdates n) := by
  rw [statusMonotone, clientUpdates_eq_blocks]
  apply List.chain'_append.mpr
  refine ⟨by simp [List.chain'_cons, stepOK_same Stage.loading (by decide) (by norm_num : (0:ℚ) ≤ 100)], ?_, ?_⟩
  · apply List.chain'_append.mpr
    refine ⟨chain'_stageBlock Stage.tts (by decide) n, ?_, ?_⟩
    · apply List.chain'_append.mpr
      refine ⟨chain'_stageBlock Stage.extracting (by decide) n, ?_, ?_⟩
      · apply List.chain'_append.mpr
        refine ⟨chain'_stageBlock Stage.detecting (by decide) n, ?_, ?_⟩
        · simp only [List.chain'_cons, List.chain'_singleton, and_true]
          exact stepOK_forward (by decide) (by decide) 0 100
        · intro x hx y hy
          rw [stageBlock_getLast] at hx
          simp only [Option.mem_def, Option.some.injEq, List.head?_cons] at hx hy
          subst hx; subst hy
          exact stepOK_forward (by decide) (by decide) 100 0
      · intro x hx y hy
        rw [stageBlock_getLast] at hx
        simp only [stageBlock, List.cons_append, List.head?_cons,
          Option.mem_def, Option.some.injEq] at hx hy
        subst hx; subst hy
        exact stepOK_forward (by decide) (by decide) 100 0
    · intro x hx y hy
      rw [stageBlock_getLast] at hx
      simp only [stageBlock, List.cons_append, List.head?_cons,
        Option.mem_def, Option.some.injEq] at hx hy
      subst hx; subst hy
      exact stepOK_forward (by decide) (by decide) 100 0
  · intro x hx y hy
    simp only [List.getLast?_cons_cons, List.getLast?_singleton,
      Option.mem_def, Option.some.injEq] at hx
    simp only [stageBlock, List.cons_append, List.head?_cons,
      Option.mem_def, Option.some.injEq] at hy
    subst hx; subst hy
    exact stepOK_forward (by decide) (by decide) 100 0

/-! ## C3 — no-detection fallback crop -/

theorem jsRoundR_ratCast (q : ℚ) : jsRoundR (q : ℝ) = jsRound q := by
  rw [jsRoundR, jsRound,
    show ((q : ℝ) + 1/2) = ((q + 1/2 : ℚ) : ℝ) by push_cast; ring]
  exact Rat.floor_cast _

/-- C3 counterexample: on a 1000×2000 frame with one sampled frame and no
detection, the spec's upper-third fallback rectangle is `(0, 74, 1000,
1778)`, but the rectangle the pipeline computes through `smartCrop` (the
one it applies) is the true-center crop `(0, 111, 1000, 1778)` — the
vertical upper third is not targeted. -/
theorem smartCrop_fallback_not_upper_third :
    smartCropRegion [none] 1000 2000 = ⟨0, 111, 1000, 1778⟩ ∧
    upperThirdFallback 1000 2000 = ⟨0, 74, 1000, 1778⟩ ∧
    smartCropRegion [none] 1000 2000 ≠ upperThirdFallback 1000 2000 := by
  have h1 : smartCropRegion [none] 1000 2000 = ⟨0, 111, 1000, 1778⟩ := by
    rw [smartCropRegion, smartCropCenter]
    norm_num [calculateCropRegion, cropDims, jsRound]
  have h2 : upperThirdFallback 1000 2000 = ⟨0, 74, 1000, 1778⟩ := by
    rw [upperThirdFallback]
    norm_num [cropDims, jsRound, clampI]
  refine ⟨h1, h2, ?_⟩
  rw [h1, h2]
  intro hEq
  cases hEq

/-- C3 amended: for a clip whose sampled frames yield no subject points,
the pipeline computes the spec's fallback — `calculateOptimalCrop` targets
the horizontal center and vertical upper third — but the rectangle it
applies comes from `smartCrop`, which passes no face center to
`calculateCropRegion` and therefore applies the plain center crop (true
vertical center). -/
theorem fallback_computed_vs_applied (pts : List (Option (ℚ × ℚ)))
    (ptsR : List (Option (ℝ × ℝ))) (videoWidth videoHeight : ℤ)
    (hp : ∀ p ∈ pts, p = none) (hpR : ∀ p ∈ ptsR, p = none) :
    smartCropRegion pts videoWidth videoHeight =
      calculateCropRegion videoWidth videoHeight none ∧
    calculateOptimalCrop ptsR videoWidth videoHeight =
      upperThirdFallback videoWidth videoHeight := by
  have hnil : pts.filterMap id = [] :=
    List.filterMap_eq_nil_iff.mpr (by simpa using hp)
  have hnilR : ptsR.filterMap id = [] :=
    List.filterMap_eq_nil_iff.mpr (by simpa using hpR)
  constructor
  · rw [smartCropRegion]
    have hc : smartCropCenter pts = none := by
      rw [smartCropCenter]
      simp [hnil]
    rw [hc]
  · rw [calculateOptimalCrop, upperThirdFallback, hnilR]
    simp only [List.length_nil, lt_irrefl, if_false, CropRegion.mk.injEq]
    refine ⟨?_, ?_, trivial, trivial⟩
    · have hcast : (videoWidth : ℝ) / 2 - ((cropDims videoWidth videoHeight).1 : ℝ) / 2 =
          (((videoWidth : ℚ) / 2 - ((cropDims videoWidth videoHeight).1 : ℚ) / 2 : ℚ) : ℝ) := by
        push_cast
        ring
      rw [hcast, jsRoundR_ratCast]
    · have hcast : (videoHeight : ℝ) / 3 - ((cropDims videoWidth videoHeight).2 : ℝ) / 3 =
          (((videoHeight : ℚ) / 3 - ((cropDims videoWidth videoHeight).2 : ℚ) / 3 : ℚ) : ℝ) := by
        push_cast
        ring
      rw [hcast, jsRoundR_ratCast]

/-- Witness for `fallback_computed_vs_applied` at one all-null detection on
a 1000×2000 frame. -/
theorem fallback_computed_vs_applied_witness :
    smartCropRegion [none] 1000 2000 = calculateCropRegion 1000 2000 none ∧
    calculateOptimalCrop [none] 1000 2000 = upperThirdFallback 1000 2000 :=
  fallback_computed_vs_applied [none] [none] 1000 2000 (by simp) (by simp)

/-! ## C9 — recency-weighted centroid vs applied target -/

/-- C9 counterexample: for detections `(0,0)` then `(100,100)`, the target
point the pipeline applies (`smartCrop`'s plain mean) is `(50, 50)`, while
the recency-weighted centroid with weights `1.2^(i/n)` is a different
point: the claim that the applied target is the weighted centroid fails. -/
theorem applied_target_not_weighted_centroid :
    smartCropCenter [some (0, 0), some (100, 100)] = some (50, 50) ∧
    weightedCentroid [((0 : ℝ), (0 : ℝ)), (100, 100)] ≠ ((50 : ℝ), (50 : ℝ)) := by
  constructor
  · have hfm : [some ((0 : ℚ), (0 : ℚ)), some (100, 100)].filterMap id
        = [(0, 0), (100, 100)] := rfl
    rw [smartCropCenter, hfm]
    norm_num
  · have hval : weightedCentroid [((0 : ℝ), (0 : ℝ)), (100, 100)] =
        (100 * (1.2 : ℝ) ^ ((1 : ℝ) / 2) / (1 + (1.2 : ℝ) ^ ((1 : ℝ) / 2)),
         100 * (1.2 : ℝ) ^ ((1 : ℝ) / 2) / (1 + (1.2 : ℝ) ^ ((1 : ℝ) / 2))) := by
      rw [weightedCentroid, recencyWeights]
      norm_num [List.range_succ, Real.rpow_zero]
    rw [hval]
    intro hEq
    have h1 : 100 * (1.2 : ℝ) ^ ((1 : ℝ) / 2) / (1 + (1.2 : ℝ) ^ ((1 : ℝ) / 2))
        = 50 := congrArg Prod.fst hEq
    have hpos : (0 : ℝ) < (1.2 : ℝ) ^ ((1 : ℝ) / 2) :=
      Real.rpow_pos_of_pos (by norm_num) _
    have hden : (0 : ℝ) < 1 + (1.2 : ℝ) ^ ((1 : ℝ) / 2) := by linarith
    rw [div_eq_iff (ne_of_gt hden)] at h1
    have hw1 : (1.2 : ℝ) ^ ((1 : ℝ) / 2) = 1 := by linarith
    have hsq : (1.2 : ℝ) ^ ((1 : ℝ) / 2) * (1.2 : ℝ) ^ ((1 : ℝ) / 2) = 1.2 := by
      rw [← Real.rpow_add (by norm_num)]
      norm_num
    rw [hw1] at hsq
    norm_num at hsq

theorem foldl_add_eq_sum {α : Type} (g : α → ℚ) (l : List α) (a : ℚ) :
    l.foldl (fun s c => s + g c) a = a + (l.map g).sum := by
  induction l generalizing a with
  | nil => simp
  | cons x xs ih => simp [ih, add_assoc]

/-- C9 amended: for every non-empty list of located points, the crop target
point the pipeline applies (`smartCrop`'s average center) is the plain
unweighted arithmetic mean of the located points; the recency-weighted
centroid is computed only by the unused `calculateOptimalCrop`. -/
theorem applied_target_is_unweighted_mean (pts : List (Option (ℚ × ℚ)))
    (h : pts.filterMap id ≠ []) :
    smartCropCenter pts =
      some (((pts.filterMap id).map Prod.fst).sum / (pts.filterMap id).length,
            ((pts.filterMap id).map Prod.snd).sum / (pts.filterMap id).length) := by
  rw [smartCropCenter]
  have hlen : 0 < (pts.filterMap id).length := List.length_pos.mpr h
  rw [if_pos hlen]
  have e1 := foldl_add_eq_sum (fun c : ℚ × ℚ => c.1) (pts.filterMap id) 0
  have e2 := foldl_add_eq_sum (fun c : ℚ × ℚ => c.2) (pts.filterMap id) 0
  rw [zero_add] at e1 e2
  rw [e1, e2]

/-- Witness for `applied_target_is_unweighted_mean` at the two detections
`(0,0)` and `(100,100)`. -/
theorem applied_target_is_unweighted_mean_witness :
    smartCropCenter [some ((0 : ℚ), (0 : ℚ)), some (100, 100)] =
      some ((([some ((0 : ℚ), (0 : ℚ)), some (100, 100)].filterMap id).map Prod.fst).sum /
              ([some ((0 : ℚ), (0 : ℚ)), some (100, 100)].filterMap id).length,
            (([some ((0 : ℚ), (0 : ℚ)), some (100, 100)].filterMap id).map Prod.snd).sum /
              ([some ((0 : ℚ), (0 : ℚ)), some (100, 100)].filterMap id).length) :=
  applied_target_is_unweighted_mean [some (0, 0), some (100, 100)] (by simp)

/-! ## C5 — crop bounds invariant -/

/-- The crop-region well-formedness invariant stated by the specification:
the rectangle sits inside the frame, and its aspect is 9:16 within one
pixel of rounding on the width (|16·width − 9·height| ≤ 16, i.e. the width
is within one pixel of (9/16)·height). -/
def cropInvariant (videoWidth videoHeight : ℤ) (r : CropRegion) : Prop :=
  0 ≤ r.x ∧ 0 ≤ r.y ∧ r.x + r.width ≤ videoWidth ∧
  r.y + r.height ≤ videoHeight ∧
  |(16 : ℚ) * r.width - 9 * r.height| ≤ 16

theorem clampI_mem (v lo hi : ℤ) (h : lo ≤ hi) :
    lo ≤ clampI v lo hi ∧ clampI v lo hi ≤ hi :=
  ⟨le_max_left _ _, max_le h (min_le_right _ _)⟩

theorem cropDims_bounds (W H : ℤ) (hW : 1 ≤ W) (hH : 1 ≤ H) :
    1 ≤ (cropDims W H).1 ∧ (cropDims W H).1 ≤ W ∧
    1 ≤ (cropDims W H).2 ∧ (cropDims W H).2 ≤ H ∧
    |(16 : ℚ) * (cropDims W H).1 - 9 * (cropDims W H).2| ≤ 16 := by
  have hWq : (1 : ℚ) ≤ (W : ℚ) := by exact_mod_cast hW
  have hHq : (1 : ℚ) ≤ (H : ℚ) := by exact_mod_cast hH
  rw [cropDims]
  split
  · next hgt =>
      have h916 : (9 : ℚ) * H < W * 16 :=
        (div_lt_div_iff₀ (by norm_num) (by linarith)).mp hgt
      dsimp only
      have hfl : ((jsRound ((H : ℚ) * (9 / 16)) : ℤ) : ℚ) ≤ (H : ℚ) * (9 / 16) + 1 / 2 :=
        Int.floor_le _
      have hfg : (H : ℚ) * (9 / 16) + 1 / 2 - 1 < ((jsRound ((H : ℚ) * (9 / 16)) : ℤ) : ℚ) :=
        Int.sub_one_lt_floor _
      refine ⟨?_, ?_, hH, le_refl H, ?_⟩
      · rw [jsRound]
        exact Int.le_floor.mpr (by push_cast; linarith)
      · have := Int.floor_lt.mpr
          (show (H : ℚ) * (9 / 16) + 1 / 2 < ((W + 1 : ℤ) : ℚ) by push_cast; linarith)
        rw [jsRound]
        omega
      · rw [abs_le]
        constructor <;> nlinarith [hfl, hfg]
  · next hle =>
      have h916 : (W : ℚ) * 16 ≤ 9 * H := by
        rcases lt_or_ge ((9 : ℚ) / 16) ((W : ℚ) / H) with h | h
        · exact absurd h hle
        · exact (div_le_div_iff₀ (by linarith) (by norm_num)).mp h
      have hdiv : (W : ℚ) / (9 / 16) = 16 * W / 9 := by
        rw [div_div_eq_mul_div]
        ring
      dsimp only
      have hfl : ((jsRound ((W : ℚ) / (9 / 16)) : ℤ) : ℚ) ≤ 16 * (W : ℚ) / 9 + 1 / 2 := by
        rw [← hdiv]; exact Int.floor_le _
      have hfg : 16 * (W : ℚ) / 9 + 1 / 2 - 1 < ((jsRound ((W : ℚ) / (9 / 16)) : ℤ) : ℚ) := by
        rw [← hdiv]; exact Int.sub_one_lt_floor _
      refine ⟨hW, le_refl W, ?_, ?_, ?_⟩
      · rw [jsRound, hdiv]
        exact Int.le_floor.mpr (by push_cast; nlinarith)
      · have := Int.floor_lt.mpr
          (show (W : ℚ) / (9 / 16) + 1 / 2 < ((H + 1 : ℤ) : ℚ) by
            rw [hdiv]; push_cast; nlinarith)
        rw [jsRound]
        omega
      · rw [abs_le]
        constructor <;> nlinarith [hfl, hfg]

theorem jsRound_center_bounds (d : ℤ) (hd : 0 ≤ d) :
    0 ≤ jsRound ((d : ℚ) / 2) ∧ jsRound ((d : ℚ) / 2) ≤ d := by
  have hdq : (0 : ℚ) ≤ (d : ℚ) := by exact_mod_cast hd
  constructor
  · rw [jsRound]
    exact Int.le_floor.mpr (by push_cast; linarith)
  · have := Int.floor_lt.mpr
      (show (d : ℚ) / 2 + 1 / 2 < ((d + 1 : ℤ) : ℚ) by push_cast; linarith)
    rw [jsRound]
    omega

/-- C5: for every list of subject-point inputs (including empty and
all-null ones) and every positive integer frame dimensions, the computed
`CropRegion` — from the MediaPipe `calculateOptimalCrop` and from the
browser `calculateCropRegion` alike — lies inside the frame and keeps the
9:16 aspect within one pixel of rounding. -/
theorem crop_region_bounds (videoWidth videoHeight : ℤ)
    (hW : 1 ≤ videoWidth) (hH : 1 ≤ videoHeight) :
    (∀ pts : List (Option (ℝ × ℝ)),
      cropInvariant videoWidth videoHeight
        (calculateOptimalCrop pts videoWidth videoHeight)) ∧
    (∀ fc : Option (ℚ × ℚ),
      cropInvariant videoWidth videoHeight
        (calculateCropRegion videoWidth videoHeight fc)) := by
  obtain ⟨h1, h2, h3, h4, h5⟩ := cropDims_bounds videoWidth videoHeight hW hH
  constructor
  · intro pts
    rw [calculateOptimalCrop, cropInvariant]
    dsimp only
    have hx := clampI_mem
      (jsRoundR ((if 0 < (pts.filterMap id).length then
          weightedCentroid (pts.filterMap id)
        else ((videoWidth : ℝ) / 2, (videoHeight : ℝ) / 3)).1
        - ((cropDims videoWidth videoHeight).1 : ℝ) / 2))
      0 (videoWidth - (cropDims videoWidth videoHeight).1) (by omega)
    have hy := clampI_mem
      (jsRoundR ((if 0 < (pts.filterMap id).length then
          weightedCentroid (pts.filterMap id)
        else ((videoWidth : ℝ) / 2, (videoHeight : ℝ) / 3)).2
        - ((cropDims videoWidth videoHeight).2 : ℝ) / 3))
      0 (videoHeight - (cropDims videoWidth videoHeight).2) (by omega)
    exact ⟨hx.1, hy.1, by omega, by omega, h5⟩
  · intro fc
    cases fc with
    | none =>
        rw [calculateCropRegion, cropInvariant]
        dsimp only
        have hcx : (videoWidth : ℚ) - ((cropDims videoWidth videoHeight).1 : ℚ) =
            ((videoWidth - (cropDims videoWidth videoHeight).1 : ℤ) : ℚ) := by
          push_cast; ring
        have hcy : (videoHeight : ℚ) - ((cropDims videoWidth videoHeight).2 : ℚ) =
            ((videoHeight - (cropDims videoWidth videoHeight).2 : ℤ) : ℚ) := by
          push_cast; ring
        rw [hcx, hcy]
        have hx := jsRound_center_bounds
          (videoWidth - (cropDims videoWidth videoHeight).1) (by omega)
        have hy := jsRound_center_bounds
          (videoHeight - (cropDims videoWidth videoHeight).2) (by omega)
        exact ⟨hx.1, hy.1, by omega, by omega, h5⟩
    | some fc =>
        rw [calculateCropRegion, cropInvariant]
        dsimp only
        have hx := clampI_mem
          (jsRound (fc.1 - ((cropDims videoWidth videoHeight).1 : ℚ) / 2))
          0 (videoWidth - (cropDims videoWidth videoHeight).1) (by omega)
        have hy := clampI_mem
          (jsRound (fc.2 - ((cropDims videoWidth videoHeight).2 : ℚ) / 3))
          0 (videoHeight - (cropDims videoWidth videoHeight).2) (by omega)
        exact ⟨hx.1, hy.1, by omega, by omega, h5⟩

/-- Witness for `crop_region_bounds` at the 720×1280 output frame, with no
detections and with no face center. -/
theorem crop_region_bounds_witness :
    (1 : ℤ) ≤ 720 ∧ (1 : ℤ) ≤ 1280 ∧
    cropInvariant 720 1280 (calculateOptimalCrop [] 720 1280) ∧
    cropInvariant 720 1280 (calculateCropRegion 720 1280 none) :=
  ⟨by decide, by decide,
    (crop_region_bounds 720 1280 (by decide) (by decide)).1 [],
    (crop_region_bounds 720 1280 (by decide) (by decide)).2 none⟩

/-! ## C6, C7 — caption timing -/

theorem splitWordsAux_ne_empty (cs acc : List Char) :
    ∀ w ∈ splitWordsAux cs acc, w.data ≠ [] := by
  induction cs generalizing acc with
  | nil =>
      intro w hw
      rw [splitWordsAux] at hw
      split at hw
      · simp at hw
      · next hacc =>
          simp only [List.mem_singleton] at hw
          subst hw
          simpa using fun h => hacc (List.reverse_eq_nil_iff.mp h)
  | cons c cs ih =>
      intro w hw
      rw [splitWordsAux] at hw
      split at hw
      · split at hw
        · exact ih [] w hw
        · next hacc =>
            rcases List.mem_cons.mp hw with h | h
            · subst h
              simpa using fun h => hacc (List.reverse_eq_nil_iff.mp h)
            · exact ih [] w h
      · exact ih (c :: acc) w hw

theorem splitWords_ne_empty (text : String) :
    ∀ w ∈ splitWords text, w.data ≠ [] :=
  splitWordsAux_ne_empty text.data []

theorem wordWeight_ge_one (w : String) (hw : w.data ≠ []) : 1 ≤ wordWeight w := by
  have hlen : 1 ≤ (w.data.length : ℚ) := by
    have := List.length_pos.mpr hw
    exact_mod_cast this
  rw [wordWeight]
  split
  · linarith
  · split
    · linarith
    · linarith

theorem splitWords_weight_pos (text : String) (h : splitWords text ≠ []) :
    0 < ((splitWords text).map wordWeight).sum := by
  apply List.sum_pos
  · intro x hx
    rcases List.mem_map.mp hx with ⟨w, hwmem, rfl⟩
    have := wordWeight_ge_one w (splitWords_ne_empty text w hwmem)
    linarith
  · simpa using h

theorem buildTimings_ne_nil (tpw : ℚ) (w : String) (ws : List String) (cur : ℚ) :
    buildTimings tpw (w :: ws) cur ≠ [] := by
  rw [buildTimings]
  simp

theorem buildTimings_durations (tpw : ℚ) (ws : List String) (cur : ℚ) :
    (buildTimings tpw ws cur).map (fun t => t.endTime - t.startTime) =
      ws.map (fun w => wordWeight w * tpw) := by
  induction ws generalizing cur with
  | nil => rfl
  | cons w ws ih =>
      simp only [buildTimings, List.map_cons, ih]
      congr 1
      ring

theorem buildTimings_chain (tpw : ℚ) (ws : List String) (cur : ℚ) :
    List.Chain' (fun a b => a.endTime = b.startTime) (buildTimings tpw ws cur) := by
  induction ws generalizing cur with
  | nil => simp [buildTimings]
  | cons w ws ih =>
      rw [buildTimings, List.chain'_cons']
      refine ⟨?_, ih _⟩
      intro y hy
      cases ws with
      | nil => simp [buildTimings] at hy
      | cons w' ws' =>
          rw [buildTimings] at hy
          simp only [List.head?_cons, Option.mem_def, Option.some.injEq] at hy
          subst hy
          rfl

theorem buildTimings_getLast_endTime (tpw : ℚ) (w : String) (ws : List String)
    (cur : ℚ) :
    (buildTimings tpw (w :: ws) cur).getLast?.map CaptionWord.endTime =
      some (cur + ((w :: ws).map wordWeight).sum * tpw) := by
  induction ws generalizing w cur with
  | nil =>
      rw [buildTimings, buildTimings]
      simp only [List.getLast?_singleton, Option.map_some', List.map_cons,
        List.map_nil, List.sum_cons, List.sum_nil, Option.some.injEq]
      ring
  | cons w' ws' ih =>
      have hih := ih w' (cur + wordWeight w * tpw)
      rw [buildTimings] at hih
      rw [buildTimings, buildTimings, List.getLast?_cons_cons, hih]
      simp only [Option.some.injEq, List.map_cons, List.sum_cons]
      ring

theorem getLast?_cons_of_ne_nil {α : Type} (a : α) {l : List α} (h : l ≠ []) :
    (a :: l).getLast? = l.getLast? := by
  cases l with
  | nil => exact absurd rfl h
  | cons b bs => exact List.getLast?_cons_cons

theorem setLastEnd_eq_self (l : List CaptionWord) (e : ℚ)
    (h : l.getLast?.map CaptionWord.endTime = some e) : setLastEnd l e = l := by
  induction l with
  | nil => simp at h
  | cons w ws ih =>
      cases ws with
      | nil =>
          simp only [List.getLast?_singleton, Option.map_some',
            Option.some.injEq] at h
          rw [setLastEnd, ← h]
      | cons w' ws' =>
          rw [setLastEnd]
          rw [getLast?_cons_of_ne_nil w (by simp)] at h
          rw [ih h]

theorem estimateWordTimings_eq (text : String) (s d : ℚ)
    (h : splitWords text ≠ []) :
    estimateWordTimings text s d =
      buildTimings (d / ((splitWords text).map wordWeight).sum)
        (splitWords text) s := by
  have hpos := splitWords_weight_pos text h
  rw [estimateWordTimings]
  simp only [if_neg h]
  apply setLastEnd_eq_self
  rcases hsplit : splitWords text with _ | ⟨w, ws⟩
  · exact absurd hsplit h
  · rw [hsplit] at hpos
    rw [buildTimings_getLast_endTime]
    have hne : (((w :: ws).map wordWeight).sum : ℚ) ≠ 0 := ne_of_gt hpos
    congr 1
    rw [mul_comm, div_mul_cancel₀ _ hne]

theorem buildTimings_pos (tpw : ℚ) (htpw : 0 < tpw) (ws : List String)
    (hws : ∀ w ∈ ws, w.data ≠ []) (cur : ℚ) :
    ∀ t ∈ buildTimings tpw ws cur, t.startTime < t.endTime := by
  induction ws generalizing cur with
  | nil => simp [buildTimings]
  | cons w ws ih =>
      intro t ht
      rw [buildTimings] at ht
      rcases List.mem_cons.mp ht with hh | hh
      · subst hh
        dsimp only
        have h1 := wordWeight_ge_one w (hws w (by simp))
        nlinarith
      · exact ih (fun w' hw' => hws w' (by simp [hw'])) _ t hh

/-- C6: for every segment text containing at least one word and every
positive voiceover duration, the generated caption words exactly tile
`[0, duration)`: the list is non-empty, the first word starts at 0, each
word's start equals the previous word's end, every window has positive
width, and the last word ends exactly at `duration`. -/
theorem captions_tile (text : String) (d : ℚ) (hw : splitWords text ≠ [])
    (hd : 0 < d) :
    estimateWordTimings text 0 d ≠ [] ∧
    (estimateWordTimings text 0 d).head?.map CaptionWord.startTime = some 0 ∧
    List.Chain' (fun a b => a.endTime = b.startTime)
      (estimateWordTimings text 0 d) ∧
    (estimateWordTimings text 0 d).getLast?.map CaptionWord.endTime = some d ∧
    ∀ t ∈ estimateWordTimings text 0 d, t.startTime < t.endTime := by
  have heq := estimateWordTimings_eq text 0 d hw
  have hpos := splitWords_weight_pos text hw
  have htpw : 0 < d / ((splitWords text).map wordWeight).sum := div_pos hd hpos
  rcases hsplit : splitWords text with _ | ⟨w, ws⟩
  · exact absurd hsplit hw
  · rw [hsplit] at heq hpos htpw
    rw [heq]
    refine ⟨buildTimings_ne_nil _ _ _ _, ?_, buildTimings_chain _ _ _, ?_, ?_⟩
    · rw [buildTimings]
      rfl
    · rw [buildTimings_getLast_endTime]
      congr 1
      rw [mul_comm, div_mul_cancel₀ _ (ne_of_gt hpos), zero_add]
    · exact buildTimings_pos _ htpw _
        (fun w' hw' => splitWords_ne_empty text w' (hsplit ▸ hw')) 0

/-- Witness for `captions_tile` at the two-word segment text
`"Go now."` with a 3-second voiceover. -/
theorem captions_tile_witness :
    splitWords "Go now." ≠ [] ∧ (0 : ℚ) < 3 ∧
    (estimateWordTimings "Go now." 0 3 ≠ [] ∧
      (estimateWordTimings "Go now." 0 3).head?.map CaptionWord.startTime = some 0 ∧
      List.Chain' (fun a b => a.endTime = b.startTime)
        (estimateWordTimings "Go now." 0 3) ∧
      (estimateWordTimings "Go now." 0 3).getLast?.map CaptionWord.endTime = some 3 ∧
      ∀ t ∈ estimateWordTimings "Go now." 0 3, t.startTime < t.endTime) :=
  ⟨by decide, by decide, captions_tile "Go now." 3 (by decide) (by decide)⟩

/-- C7: each caption word's displayed duration is its weight — character
count plus 3 for `.`/`!`/`?` endings, 1.5 for `,`/`;`/`:` endings — times
the normalizing factor `duration / totalWeight`, and the word durations of
a segment sum exactly to the segment's voiceover duration. -/
theorem caption_word_weights (text : String) (s d : ℚ)
    (hw : splitWords text ≠ []) :
    (estimateWordTimings text s d).map (fun t => t.endTime - t.startTime) =
      (splitWords text).map
        (fun w => wordWeight w * (d / ((splitWords text).map wordWeight).sum)) ∧
    ((estimateWordTimings text s d).map
        (fun t => t.endTime - t.startTime)).sum = d := by
  have heq := estimateWordTimings_eq text s d hw
  have hpos := splitWords_weight_pos text hw
  constructor
  · rw [heq, buildTimings_durations]
  · rw [heq, buildTimings_durations, List.sum_map_mul_right, mul_comm,
      div_mul_cancel₀ _ (ne_of_gt hpos)]

/-- Witness for `caption_word_weights` at `"Go now."`, start 0,
duration 3. -/
theorem caption_word_weights_witness :
    splitWords "Go now." ≠ [] ∧
    ((estimateWordTimings "Go now." 0 3).map (fun t => t.endTime - t.startTime) =
      (splitWords "Go now.").map
        (fun w => wordWeight w * (3 / ((splitWords "Go now.").map wordWeight).sum)) ∧
    ((estimateWordTimings "Go now." 0 3).map
        (fun t => t.endTime - t.startTime)).sum = 3) :=
  ⟨by decide, caption_word_weights "Go now." 0 3 (by decide)⟩

end ShortShorts
